import Mathlib

/-!
Shallow embedding of the HIR indexing layer of `compiler/rustc_middle/src/hir/mod.rs`:
the data model (`Owner`, `OwnerNodes`, `ParentedNode`, `AttributeMap`, `IndexedHir`),
the stable-hashing implementations, and the provider closures registered in `provide`
(`hir_owner`, `hir_owner_parent`, `hir_attrs`, `def_span`, `fn_arg_names`,
`parent_module`).  External collaborators (the HIR map, definitions table, resolver)
are carried as explicit fields of a `Tcx` record.  Functionality delegated to
`hir/map.rs` (not part of this development's sources) is modelled from the spec and
marked as such in its doc comment.
-/

namespace RustcHir

/-- Fingerprint: fixed-size deterministic content hash (opaque 64-bit value here). -/
abbrev Fingerprint := Nat

/-- ItemLocalId: dense, owner-scoped index into an owner's node array. -/
abbrev ItemLocalId := Nat

/-- LocalDefId: identifier of a definition in the local crate. -/
abbrev LocalDefId := Nat

/-- BodyId: identifier of an executable body. -/
abbrev BodyId := Nat

/-- Identifier (rustc `Ident`). -/
abbrev Ident := String

/-- Attribute payload, opaque for this development. -/
abbrev Attribute := Nat

/-- Source span, opaque for this development. -/
abbrev Span := Nat

/-- Sentinel empty span (`rustc_span::DUMMY_SP`). -/
def DUMMY_SP : Span := 0

/-- HirId: pair of owner and item-local index (rustc `HirId`). -/
structure HirId where
  owner : LocalDefId
  local_id : ItemLocalId
deriving DecidableEq, Repr

/-- The `HirId` of the crate root (`CRATE_HIR_ID`): owner is the crate root def,
local id 0. -/
def CRATE_HIR_ID : HirId := ⟨0, 0⟩

/-- TraitFn: a trait method is either required (signature only, declared parameter
identifiers recorded) or provided (has a body). -/
inductive TraitFn where
  | required (idents : List Ident)
  | provided (body : BodyId)
deriving DecidableEq, Repr

/-- TraitItemKind: the payload kinds of a trait item; only `Fn` matters to the
providers in this file, other kinds are opaque. -/
inductive TraitItemKind where
  | fn (sig : Nat) (tf : TraitFn)
  | otherKind (k : Nat)
deriving DecidableEq, Repr

/-- TraitItem: an item declared inside a trait. -/
structure TraitItem where
  kind : TraitItemKind
deriving DecidableEq, Repr

/-- OwnerNode: the node forms that may sit at the root of a HIR owner. Payloads
are opaque. -/
inductive OwnerNode where
  | item (k : Nat)
  | traitItem (ti : TraitItem)
  | implItem (k : Nat)
  | foreignItem (k : Nat)
  | crateNode (k : Nat)
deriving DecidableEq, Repr

/-- Node: a HIR node. Owner-kind variants mirror `OwnerNode`; `expr` and
`otherNode` stand for the non-owner node kinds, with opaque payloads. -/
inductive Node where
  | item (k : Nat)
  | traitItem (ti : TraitItem)
  | implItem (k : Nat)
  | foreignItem (k : Nat)
  | crateNode (k : Nat)
  | expr (k : Nat)
  | otherNode (k : Nat)
deriving DecidableEq, Repr

/-- Conversion `Node::as_owner`: succeeds exactly on the owner-kind node
variants. -/
def Node.as_owner : Node → Option OwnerNode
  | .item k => some (.item k)
  | .traitItem ti => some (.traitItem ti)
  | .implItem k => some (.implItem k)
  | .foreignItem k => some (.foreignItem k)
  | .crateNode k => some (.crateNode k)
  | .expr _ => none
  | .otherNode _ => none

/-- Embedding of an `OwnerNode` back into `Node` (rustc `OwnerNode::into`). -/
def OwnerNode.toNode : OwnerNode → Node
  | .item k => .item k
  | .traitItem ti => .traitItem ti
  | .implItem k => .implItem k
  | .foreignItem k => .foreignItem k
  | .crateNode k => .crateNode k

/-- Parameter of a body: the identifier bound by its pattern. -/
structure Param where
  ident : Ident
deriving DecidableEq, Repr

/-- Body: executable content; only the parameter list is relevant to the
providers verified here. -/
structure Body where
  params : List Param
deriving DecidableEq, Repr

/-- ParentedNode: HIR node coupled with its parent's local id in the same owner.
The parent is trash when the node is itself a HIR owner. -/
structure ParentedNode where
  parent : ItemLocalId
  node : Node
deriving DecidableEq, Repr

/-- OwnerNodes: per-owner node store with the two precomputed fingerprints and
the bodies sidecar (`IndexVec` modelled as a list indexed by `ItemLocalId`). -/
structure OwnerNodes where
  hash : Fingerprint
  node_hash : Fingerprint
  nodes : List (Option ParentedNode)
  bodies : List (Option Body)
deriving DecidableEq, Repr

/-- IndexedHir: result of HIR indexing for one owner; `parenting` maps each
nested owner to its parent's local id (`FxHashMap` modelled as an association
list). -/
structure IndexedHir where
  nodes : OwnerNodes
  parenting : List (LocalDefId × ItemLocalId)
deriving DecidableEq, Repr

/-- Owner: top-level summary for an owner, root node plus precomputed root-node
fingerprint. -/
structure Owner where
  node : OwnerNode
  node_hash : Fingerprint
deriving DecidableEq, Repr

/-- The stable hasher is modelled by the sequence of words absorbed so far;
hashing a value appends its contribution. -/
abbrev StableHasher := List Nat

/-- Stable hashing of a `Fingerprint`: absorb the fingerprint value. -/
def Fingerprint.hashStable (f : Fingerprint) (hasher : StableHasher) : StableHasher :=
  hasher ++ [f]

/-- Embedding of `impl HashStable for Owner`: destructure, ignore `node`, and
forward to the precomputed `node_hash` fingerprint. -/
def Owner.hash_stable (o : Owner) (hasher : StableHasher) : StableHasher :=
  o.node_hash.hashStable hasher

/-- Embedding of `impl HashStable for OwnerNodes`: destructure, ignore
`node_hash`, `nodes` and `bodies`, and forward to the precomputed `hash`
fingerprint. -/
def OwnerNodes.hash_stable (self : OwnerNodes) (hasher : StableHasher) : StableHasher :=
  self.hash.hashStable hasher

/-- OwnerInfo: lowering output for one owner; only the attribute table is
relevant here (`BTreeMap` modelled as an association list). -/
structure OwnerInfo where
  attrs : List (ItemLocalId × List Attribute)
deriving DecidableEq, Repr

/-- AttributeMap: attributes owned by a HIR owner. -/
structure AttributeMap where
  map : List (ItemLocalId × List Attribute)
deriving DecidableEq, Repr

/-- Embedding of `AttributeMap::new`: project the attribute table out of the
owner's lowering output, falling back to the empty map when the owner is
absent. -/
def AttributeMap.new (owner_info : Option OwnerInfo) : AttributeMap :=
  ⟨match owner_info with
   | none => []
   | some info => info.attrs⟩

/-- Embedding of `AttributeMap::get`: look up the local id, defaulting to the
empty attribute list. -/
def AttributeMap.get (am : AttributeMap) (id : ItemLocalId) : List Attribute :=
  (am.map.lookup id).getD []

/-- Result of running a provider: either a value or a fatal internal error
(a rust panic via `unwrap`/`span_bug`). -/
inductive PResult (α : Type) where
  | ok (a : α)
  | fatal
deriving DecidableEq, Repr

/-- Tcx: the global context as seen by this file, carrying the external
collaborators the provider closures call into (the memoized `index_hir` query,
the definitions table, the HIR map). -/
structure Tcx where
  index_hir : LocalDefId → Option IndexedHir
  def_key_parent : LocalDefId → Option LocalDefId
  local_def_id_to_hir_id : LocalDefId → HirId
  parent_module_from_def_id : LocalDefId → LocalDefId
  maybe_body_owned_by : HirId → Option BodyId
  body : BodyId → Body
  getNode : HirId → Node
  span_if_local : LocalDefId → Option Span
  hir_crate_owners : LocalDefId → Option OwnerInfo

/-- Embedding of the `hir_owner` provider: look up the `IndexedHir` (propagating
its absence as `none`), read the node at local id 0 (fatal if the slot is out of
range or empty), convert it to an `OwnerNode` (fatal if it is not owner-kind),
and pair it with the precomputed `node_hash`. -/
def hir_owner (tcx : Tcx) (id : LocalDefId) : PResult (Option Owner) :=
  match tcx.index_hir id with
  | none => .ok none
  | some owner =>
    match owner.nodes.nodes[0]? with
    | none => .fatal
    | some none => .fatal
    | some (some pn) =>
      match pn.node.as_owner with
      | none => .fatal
      | some node => .ok (some ⟨node, owner.nodes.node_hash⟩)

/-- Embedding of the `hir_owner_parent` provider: if the definition has no
recorded parent, return `CRATE_HIR_ID`; otherwise take the parent definition's
`HirId` and, when the cross-owner parenting table of the parent's owner records
an attaching local id for this owner, substitute that local id.  The `unwrap`
on the parent owner's `index_hir` result is fatal when that owner was never
indexed. -/
def hir_owner_parent (tcx : Tcx) (id : LocalDefId) : PResult HirId :=
  match tcx.def_key_parent id with
  | none => .ok CRATE_HIR_ID
  | some local_def_index =>
    let parent_hir_id := tcx.local_def_id_to_hir_id local_def_index
    match tcx.index_hir parent_hir_id.owner with
    | none => .fatal
    | some ih =>
      match ih.parenting.lookup id with
      | some local_id => .ok ⟨parent_hir_id.owner, local_id⟩
      | none => .ok parent_hir_id

/-- Embedding of the `hir_attrs` provider: build the `AttributeMap` from the
lowering output for that owner. -/
def hir_attrs (tcx : Tcx) (id : LocalDefId) : AttributeMap :=
  AttributeMap.new (tcx.hir_crate_owners id)

/-- Embedding of the `def_span` provider: the recorded local span, or `DUMMY_SP`
when unavailable. -/
def def_span (tcx : Tcx) (def_id : LocalDefId) : Span :=
  (tcx.span_if_local def_id).getD DUMMY_SP

/-- Embedding of `TyCtxt::parent_module`: forward the owner component of the
`HirId` to `parent_module_from_def_id`. -/
def parent_module (tcx : Tcx) (id : HirId) : LocalDefId :=
  tcx.parent_module_from_def_id id.owner

/-- Modelled from the spec: `Map::body_param_names` lives in `hir/map.rs`, which
is not among the sources; per the spec it yields "identifiers bound by the
body's parameter patterns, in declaration order". -/
def body_param_names (tcx : Tcx) (id : BodyId) : List Ident :=
  (tcx.body id).params.map Param.ident

/-- Embedding of the `fn_arg_names` provider: for a definition owning a body,
the body's parameter names; otherwise, for a required trait method, the declared
parameter identifiers; otherwise a fatal `span_bug`. -/
def fn_arg_names (tcx : Tcx) (id : LocalDefId) : PResult (List Ident) :=
  let hir_id := tcx.local_def_id_to_hir_id id
  match tcx.maybe_body_owned_by hir_id with
  | some body_id => .ok (body_param_names tcx body_id)
  | none =>
    match tcx.getNode hir_id with
    | .traitItem ⟨.fn _ (.required idents)⟩ => .ok idents
    | _ => .fatal

mutual

/-- Raw lowered node trees for one owner, as handed to the indexer (mutual with
`RawForest` so that structural recursion over the nesting is available). -/
inductive RawTree where
  | mk (node : Node) (children : RawForest)

/-- A sequence of sibling raw subtrees. -/
inductive RawForest where
  | nil
  | cons (t : RawTree) (ts : RawForest)

end

mutual

/-- Modelled from the spec: the traversal core of `map::index_hir` (in
`hir/map.rs`, not among the sources).  Per spec §4.1 the indexer performs a
single deterministic pre-order traversal assigning `LocalId`s in visitation
order, recording each node's immediate parent's local id; the accumulator holds
the slots assigned so far, so a node's local id is the accumulator length at the
moment it is pushed. -/
def indexTree (parent : ItemLocalId) (t : RawTree)
    (acc : List (Option ParentedNode)) : List (Option ParentedNode) :=
  match t with
  | .mk n cs => indexForest acc.length cs (acc ++ [some ⟨parent, n⟩])

/-- Modelled from the spec: traversal of a list of sibling subtrees, all parented
to the same node. -/
def indexForest (parent : ItemLocalId) (ts : RawForest)
    (acc : List (Option ParentedNode)) : List (Option ParentedNode) :=
  match ts with
  | .nil => acc
  | .cons t ts => indexForest parent ts (indexTree parent t acc)

end

/-- Raw lowered input for one owner: the owner's own node (an owner-kind node,
since owners are definitions) and the subtrees below it. -/
structure RawOwner where
  root : OwnerNode
  children : RawForest

/-- Modelled from the spec: the node array produced by `map::index_hir` for one
owner.  LocalId 0 is the owner's own node (spec §3: "LocalId 0 always denotes
the owner's own node"); its parent slot is trash and recorded as 0; the
remaining nodes are assigned by the pre-order traversal. -/
def index_owner_nodes (ro : RawOwner) : List (Option ParentedNode) :=
  indexForest 0 ro.children [some ⟨0, ro.root.toNode⟩]

/-- Order-sensitive fingerprint combine (a Fowler–Noll–Vo style step over 64-bit
values), standing in for the stable hasher's combine operation. -/
def fingerprintCombine (a b : Fingerprint) : Fingerprint :=
  (a * 1099511628211 + b) % 2 ^ 64

/-- Modelled from the spec: `map::crate_hash` (in `hir/map.rs`, not among the
sources).  Per spec §4.4 the crate hash is a "deterministic, order-independent
aggregate over all owners' `hash` values": each owner's stable id is paired with
its full-subtree fingerprint, the pairs are brought into a canonical sorted
order, and the sorted sequence is folded with the order-sensitive combine. -/
def crate_hash (owners : List (LocalDefId × Fingerprint)) : Fingerprint :=
  (List.insertionSort (fun a b => a ≤ b)
    (owners.map fun p => Nat.pair p.1 p.2)).foldl fingerprintCombine 0

mutual

theorem indexTree_all_some : ∀ (t : RawTree) (parent : ItemLocalId)
    (acc : List (Option ParentedNode)), (∀ x ∈ acc, x.isSome = true) →
    ∀ x ∈ indexTree parent t acc, x.isSome = true
  | .mk n cs, parent, acc, hacc => by
    simp only [indexTree]
    refine indexForest_all_some cs acc.length (acc ++ [some ⟨parent, n⟩]) ?_
    intro x hx
    rcases List.mem_append.1 hx with h | h
    · exact hacc x h
    · simp only [List.mem_singleton] at h
      subst h
      rfl

theorem indexForest_all_some : ∀ (ts : RawForest) (parent : ItemLocalId)
    (acc : List (Option ParentedNode)), (∀ x ∈ acc, x.isSome = true) →
    ∀ x ∈ indexForest parent ts acc, x.isSome = true
  | .nil, _, _, hacc => by
    simpa only [indexForest] using hacc
  | .cons t ts, parent, acc, hacc => by
    simp only [indexForest]
    exact indexForest_all_some ts parent _ (indexTree_all_some t parent acc hacc)

end

mutual

theorem indexTree_pref : ∀ (t : RawTree) (parent : ItemLocalId)
    (acc : List (Option ParentedNode)), acc <+: indexTree parent t acc
  | .mk n cs, parent, acc => by
    simp only [indexTree]
    exact (List.prefix_append acc [some ⟨parent, n⟩]).trans
      (indexForest_pref cs acc.length _)

theorem indexForest_pref : ∀ (ts : RawForest) (parent : ItemLocalId)
    (acc : List (Option ParentedNode)), acc <+: indexForest parent ts acc
  | .nil, _, acc => by
    simp only [indexForest]
    exact List.prefix_refl acc
  | .cons t ts, parent, acc => by
    simp only [indexForest]
    exact (indexTree_pref t parent acc).trans (indexForest_pref ts parent _)

end

theorem getElem?_of_pref {α : Type} {l1 l2 : List α} (h : l1 <+: l2) {i : Nat}
    (hi : i < l1.length) : l2[i]? = l1[i]? := by
  obtain ⟨t, rfl⟩ := h
  rw [List.getElem?_append, if_pos hi]

theorem as_owner_toNode (o : OwnerNode) : o.toNode.as_owner = some o := by
  cases o <;> rfl

/-- C1: stable-hashing an `Owner` forwards exactly the stable hash of its
precomputed `node_hash` fingerprint, and stable-hashing an `OwnerNodes`
forwards exactly the stable hash of its precomputed `hash` fingerprint; in both
cases the result is independent of the node payload, the nodes array, and the
bodies sidecar. -/
theorem owner_hash_stable_forwards_fingerprint :
    (∀ (o : Owner) (hasher : StableHasher),
        o.hash_stable hasher = o.node_hash.hashStable hasher)
    ∧ (∀ (o1 o2 : Owner) (hasher : StableHasher), o1.node_hash = o2.node_hash →
        o1.hash_stable hasher = o2.hash_stable hasher)
    ∧ (∀ (s : OwnerNodes) (hasher : StableHasher),
        s.hash_stable hasher = s.hash.hashStable hasher)
    ∧ (∀ (s1 s2 : OwnerNodes) (hasher : StableHasher), s1.hash = s2.hash →
        s1.hash_stable hasher = s2.hash_stable hasher) := by
  refine ⟨fun o hasher => rfl, fun o1 o2 hasher h => ?_, fun s hasher => rfl,
    fun s1 s2 hasher h => ?_⟩
  · simp only [Owner.hash_stable, h]
  · simp only [OwnerNodes.hash_stable, h]

/-- C1 witness: two owners sharing a `node_hash` but with different root nodes
hash identically, and two `OwnerNodes` sharing a `hash` but with different
`node_hash`, nodes and bodies hash identically. -/
theorem owner_hash_stable_forwards_fingerprint_witness :
    Owner.hash_stable ⟨.item 1, 42⟩ [7] = Owner.hash_stable ⟨.implItem 9, 42⟩ [7]
    ∧ OwnerNodes.hash_stable ⟨5, 6, [], []⟩ []
      = OwnerNodes.hash_stable ⟨5, 99, [some ⟨0, .expr 3⟩], [none]⟩ [] :=
  ⟨owner_hash_stable_forwards_fingerprint.2.1 ⟨.item 1, 42⟩ ⟨.implItem 9, 42⟩ [7] rfl,
   owner_hash_stable_forwards_fingerprint.2.2.2 ⟨5, 6, [], []⟩
     ⟨5, 99, [some ⟨0, .expr 3⟩], [none]⟩ [] rfl⟩

/-- C2: when an `IndexedHir` exists for an owner id, `hir_owner` returns
exactly the pair made of the root node stored at local id 0 of its `OwnerNodes`
and the `node_hash` field of the same `OwnerNodes`, computed purely from those
fields. -/
theorem hir_owner_returns_root_and_node_hash (tcx : Tcx) (id : LocalDefId)
    (ih : IndexedHir) (pn : ParentedNode) (node : OwnerNode)
    (h1 : tcx.index_hir id = some ih)
    (h2 : ih.nodes.nodes[0]? = some (some pn))
    (h3 : pn.node.as_owner = some node) :
    hir_owner tcx id = .ok (some ⟨node, ih.nodes.node_hash⟩) := by
  simp only [hir_owner, h1, h2, h3]

/-- C2 witness: a concrete context with one indexed owner, evaluated. -/
theorem hir_owner_returns_root_and_node_hash_witness :
    hir_owner
      ⟨fun i => if i = 3 then some ⟨⟨111, 222, [some ⟨0, .item 5⟩], []⟩, []⟩ else none,
       fun _ => none, fun i => ⟨i, 0⟩, fun i => i, fun _ => none, fun _ => ⟨[]⟩,
       fun _ => .otherNode 0, fun _ => none, fun _ => none⟩ 3
      = .ok (some ⟨.item 5, 222⟩) :=
  hir_owner_returns_root_and_node_hash _ 3
    ⟨⟨111, 222, [some ⟨0, .item 5⟩], []⟩, []⟩ ⟨0, .item 5⟩ (.item 5) rfl rfl rfl

/-- C5: the attribute lookup is total and defaults to the empty list: an owner
with no attribute table at all, and a present owner with no entry for the local
id, both yield the empty sequence; a recorded list is returned verbatim. -/
theorem hir_attrs_default_empty (tcx : Tcx) (owner : LocalDefId)
    (lid : ItemLocalId) :
    (tcx.hir_crate_owners owner = none → (hir_attrs tcx owner).get lid = [])
    ∧ (∀ info, tcx.hir_crate_owners owner = some info →
        info.attrs.lookup lid = none → (hir_attrs tcx owner).get lid = [])
    ∧ (∀ info l, tcx.hir_crate_owners owner = some info →
        info.attrs.lookup lid = some l → (hir_attrs tcx owner).get lid = l) := by
  refine ⟨fun h => ?_, fun info h hl => ?_, fun info l h hl => ?_⟩
  · simp [hir_attrs, AttributeMap.new, AttributeMap.get, h]
  · simp [hir_attrs, AttributeMap.new, AttributeMap.get, h, hl]
  · simp [hir_attrs, AttributeMap.new, AttributeMap.get, h, hl]

/-- C5 witness: a context with one recorded attribute table, evaluated at an
absent owner, an absent local id, and a recorded local id. -/
theorem hir_attrs_default_empty_witness :
    ((hir_attrs
      ⟨fun _ => none, fun _ => none, fun i => ⟨i, 0⟩, fun i => i, fun _ => none,
       fun _ => ⟨[]⟩, fun _ => .otherNode 0, fun _ => none,
       fun i => if i = 2 then some ⟨[(1, [17])]⟩ else none⟩ 9).get 1 = [])
    ∧ ((hir_attrs
      ⟨fun _ => none, fun _ => none, fun i => ⟨i, 0⟩, fun i => i, fun _ => none,
       fun _ => ⟨[]⟩, fun _ => .otherNode 0, fun _ => none,
       fun i => if i = 2 then some ⟨[(1, [17])]⟩ else none⟩ 2).get 5 = [])
    ∧ ((hir_attrs
      ⟨fun _ => none, fun _ => none, fun i => ⟨i, 0⟩, fun i => i, fun _ => none,
       fun _ => ⟨[]⟩, fun _ => .otherNode 0, fun _ => none,
       fun i => if i = 2 then some ⟨[(1, [17])]⟩ else none⟩ 2).get 1 = [17]) :=
  ⟨(hir_attrs_default_empty _ 9 1).1 rfl,
   (hir_attrs_default_empty _ 2 5).2.1 ⟨[(1, [17])]⟩ rfl rfl,
   (hir_attrs_default_empty _ 2 1).2.2 ⟨[(1, [17])]⟩ [17] rfl rfl⟩

/-- C9: the definition-span provider is total: it returns the recorded span
when `span_if_local` has one and the sentinel `DUMMY_SP` otherwise, never an
error. -/
theorem def_span_total (tcx : Tcx) (d : LocalDefId) :
    (∀ s, tcx.span_if_local d = some s → def_span tcx d = s)
    ∧ (tcx.span_if_local d = none → def_span tcx d = DUMMY_SP) := by
  refine ⟨fun s h => ?_, fun h => ?_⟩
  · simp [def_span, h]
  · simp [def_span, h]

/-- C9 witness: a context recording a span only for definition 1, evaluated at
definitions 1 and 2. -/
theorem def_span_total_witness :
    def_span
      ⟨fun _ => none, fun _ => none, fun i => ⟨i, 0⟩, fun i => i, fun _ => none,
       fun _ => ⟨[]⟩, fun _ => .otherNode 0,
       fun d => if d = 1 then some 55 else none, fun _ => none⟩ 1 = 55
    ∧ def_span
      ⟨fun _ => none, fun _ => none, fun i => ⟨i, 0⟩, fun i => i, fun _ => none,
       fun _ => ⟨[]⟩, fun _ => .otherNode 0,
       fun d => if d = 1 then some 55 else none, fun _ => none⟩ 2 = DUMMY_SP :=
  ⟨(def_span_total _ 1).1 55 rfl, (def_span_total _ 2).2 rfl⟩

/-- C10: `parent_module` depends only on the owner component of the `HirId`:
two ids with the same owner map to the same `LocalDefId`. -/
theorem parent_module_depends_only_on_owner (tcx : Tcx) (h1 h2 : HirId)
    (h : h1.owner = h2.owner) : parent_module tcx h1 = parent_module tcx h2 := by
  simp only [parent_module, h]

/-- C10 witness: two ids with owner 4 and different local ids, evaluated. -/
theorem parent_module_depends_only_on_owner_witness :
    parent_module
      ⟨fun _ => none, fun _ => none, fun i => ⟨i, 0⟩, fun i => i + 10,
       fun _ => none, fun _ => ⟨[]⟩, fun _ => .otherNode 0, fun _ => none,
       fun _ => none⟩ ⟨4, 1⟩
    = parent_module
      ⟨fun _ => none, fun _ => none, fun i => ⟨i, 0⟩, fun i => i + 10,
       fun _ => none, fun _ => ⟨[]⟩, fun _ => .otherNode 0, fun _ => none,
       fun _ => none⟩ ⟨4, 9⟩ :=
  parent_module_depends_only_on_owner _ ⟨4, 1⟩ ⟨4, 9⟩ rfl

/-- Concrete context for exercising `hir_owner_parent`: definition 7 is a
nested owner whose parent definition is 2, and owner 2's parenting table
attaches 7 at local id 4; definition 5 has no recorded parent. -/
def parentTcx : Tcx :=
  ⟨fun i => if i = 2 then some ⟨⟨111, 222, [some ⟨0, .item 5⟩], []⟩, [(7, 4)]⟩ else none,
   fun i => if i = 7 then some 2 else none,
   fun i => ⟨i, 0⟩, fun i => i, fun _ => none, fun _ => ⟨[]⟩,
   fun _ => .otherNode 0, fun _ => none, fun _ => none⟩

/-- C3: the lexical-parent provider returns the crate root `HirId` when the
definition has no recorded parent, and for a nested owner recorded in the
parent owner's cross-owner parenting table at local id k it returns exactly
(parent owner, k). -/
theorem hir_owner_parent_exact (tcx : Tcx) (id : LocalDefId) :
    (tcx.def_key_parent id = none → hir_owner_parent tcx id = .ok CRATE_HIR_ID)
    ∧ (∀ p ih k, tcx.def_key_parent id = some p →
        tcx.index_hir (tcx.local_def_id_to_hir_id p).owner = some ih →
        ih.parenting.lookup id = some k →
        hir_owner_parent tcx id = .ok ⟨(tcx.local_def_id_to_hir_id p).owner, k⟩) := by
  refine ⟨fun h => ?_, fun p ih k h1 h2 h3 => ?_⟩
  · simp [hir_owner_parent, h]
  · simp only [hir_owner_parent, h1, h2, h3]

/-- C3 witness: in `parentTcx`, definition 5 resolves to the crate root and
the nested owner 7 resolves to (owner 2, local id 4), not local id 0. -/
theorem hir_owner_parent_exact_witness :
    hir_owner_parent parentTcx 5 = .ok CRATE_HIR_ID
    ∧ hir_owner_parent parentTcx 7 = .ok ⟨2, 4⟩ :=
  ⟨(hir_owner_parent_exact parentTcx 5).1 rfl,
   (hir_owner_parent_exact parentTcx 7).2 2
     ⟨⟨111, 222, [some ⟨0, .item 5⟩], []⟩, [(7, 4)]⟩ 4 rfl rfl rfl⟩

/-- Concrete context for exercising `fn_arg_names`: definition 1 owns a body
binding `x` and `y`; definition 2 is a body-less required trait method with
declared parameters `a` and `b`; definition 5 is neither. -/
def fnTcx : Tcx :=
  ⟨fun _ => none, fun _ => none, fun i => ⟨i, 0⟩, fun i => i,
   fun h => if h = ⟨1, 0⟩ then some 0 else none,
   fun _ => ⟨[⟨"x"⟩, ⟨"y"⟩]⟩,
   fun h => if h = ⟨2, 0⟩ then .traitItem ⟨.fn 0 (.required ["a", "b"])⟩
     else .otherNode 0,
   fun _ => none, fun _ => none⟩

/-- C4: `fn_arg_names` returns the body's bound parameter identifiers for a
body-bearing definition, the declared identifiers verbatim for a body-less
required trait method, and is fatal exactly when the definition is neither of
these two shapes. -/
theorem fn_arg_names_shapes (tcx : Tcx) (id : LocalDefId) :
    (∀ b, tcx.maybe_body_owned_by (tcx.local_def_id_to_hir_id id) = some b →
        fn_arg_names tcx id = .ok (body_param_names tcx b))
    ∧ (∀ idents sig,
        tcx.maybe_body_owned_by (tcx.local_def_id_to_hir_id id) = none →
        tcx.getNode (tcx.local_def_id_to_hir_id id)
          = .traitItem ⟨.fn sig (.required idents)⟩ →
        fn_arg_names tcx id = .ok idents)
    ∧ (fn_arg_names tcx id = .fatal ↔
        tcx.maybe_body_owned_by (tcx.local_def_id_to_hir_id id) = none ∧
        ∀ idents sig, tcx.getNode (tcx.local_def_id_to_hir_id id)
          ≠ .traitItem ⟨.fn sig (.required idents)⟩) := by
  refine ⟨fun b hb => ?_, fun idents sig hb hn => ?_, ?_⟩
  · simp only [fn_arg_names, hb]
  · simp only [fn_arg_names, hb, hn]
  · cases hb : tcx.maybe_body_owned_by (tcx.local_def_id_to_hir_id id) with
    | some b =>
      refine iff_of_false (fun hcontra => ?_)
        (fun hc => Option.noConfusion hc.1)
      rw [show fn_arg_names tcx id = .ok (body_param_names tcx b) from
        by simp [fn_arg_names, hb]] at hcontra
      exact PResult.noConfusion hcontra
    | none =>
      cases hn : tcx.getNode (tcx.local_def_id_to_hir_id id) with
      | traitItem ti =>
        obtain ⟨kind⟩ := ti
        cases kind with
        | fn sig tf =>
          cases tf with
          | required idents =>
            refine iff_of_false (fun hcontra => ?_)
              (fun hc => hc.2 idents sig rfl)
            rw [show fn_arg_names tcx id = .ok idents from
              by simp [fn_arg_names, hb, hn]] at hcontra
            exact PResult.noConfusion hcontra
          | provided b =>
            refine iff_of_true (by simp [fn_arg_names, hb, hn])
              ⟨rfl, fun idents sig hc => ?_⟩
            simp at hc
        | otherKind k =>
          refine iff_of_true (by simp [fn_arg_names, hb, hn])
            ⟨rfl, fun idents sig hc => ?_⟩
          simp at hc
      | item k =>
        refine iff_of_true (by simp [fn_arg_names, hb, hn])
          ⟨rfl, fun idents sig hc => ?_⟩
        simp at hc
      | implItem k =>
        refine iff_of_true (by simp [fn_arg_names, hb, hn])
          ⟨rfl, fun idents sig hc => ?_⟩
        simp at hc
      | foreignItem k =>
        refine iff_of_true (by simp [fn_arg_names, hb, hn])
          ⟨rfl, fun idents sig hc => ?_⟩
        simp at hc
      | crateNode k =>
        refine iff_of_true (by simp [fn_arg_names, hb, hn])
          ⟨rfl, fun idents sig hc => ?_⟩
        simp at hc
      | expr k =>
        refine iff_of_true (by simp [fn_arg_names, hb, hn])
          ⟨rfl, fun idents sig hc => ?_⟩
        simp at hc
      | otherNode k =>
        refine iff_of_true (by simp [fn_arg_names, hb, hn])
          ⟨rfl, fun idents sig hc => ?_⟩
        simp at hc

/-- C4 witness: in `fnTcx`, definition 1 yields the body's bound names,
definition 2 yields the declared trait-method names verbatim, and definition 5
is fatal. -/
theorem fn_arg_names_shapes_witness :
    fn_arg_names fnTcx 1 = .ok ["x", "y"]
    ∧ fn_arg_names fnTcx 2 = .ok ["a", "b"]
    ∧ fn_arg_names fnTcx 5 = .fatal :=
  ⟨(fn_arg_names_shapes fnTcx 1).1 0 rfl,
   (fn_arg_names_shapes fnTcx 2).2.1 ["a", "b"] 0 rfl rfl,
   (fn_arg_names_shapes fnTcx 5).2.2.mpr
     ⟨rfl, fun idents sig hc => by simp [fnTcx] at hc⟩⟩

/-- C6: the crate hash is order-independent: permuting the indexing order of
the (owner, hash) pairs leaves the aggregate unchanged. -/
theorem crate_hash_order_independent (l1 l2 : List (LocalDefId × Fingerprint))
    (h : l1.Perm l2) : crate_hash l1 = crate_hash l2 := by
  unfold crate_hash
  congr 1
  refine List.eq_of_perm_of_sorted ?_ (List.sorted_insertionSort _ _)
    (List.sorted_insertionSort _ _)
  exact ((List.perm_insertionSort _ _).trans
    (h.map _)).trans (List.perm_insertionSort _ _).symm

/-- C6 witness: indexing three owners A, B, C in order [A,B,C] and in order
[C,A,B] yields the same crate hash. -/
theorem crate_hash_order_independent_witness :
    crate_hash [(1, 10), (2, 20), (3, 30)]
      = crate_hash [(3, 30), (1, 10), (2, 20)] :=
  crate_hash_order_independent [(1, 10), (2, 20), (3, 30)]
    [(3, 30), (1, 10), (2, 20)] (by decide)

/-- Concrete one-owner indexing input: an item root with a single expression
child. -/
def sampleRawOwner : RawOwner := ⟨.item 5, .cons (.mk (.expr 1) .nil) .nil⟩

/-- Concrete context mapping owner 3 to an `IndexedHir` whose node store was
produced by the indexer on `sampleRawOwner`. -/
def indexedTcx : Tcx :=
  ⟨fun i => if i = 3
      then some ⟨⟨777, 888, index_owner_nodes sampleRawOwner, []⟩, []⟩ else none,
   fun _ => none, fun i => ⟨i, 0⟩, fun i => i, fun _ => none, fun _ => ⟨[]⟩,
   fun _ => .otherNode 0, fun _ => none, fun _ => none⟩

/-- C7: the indexer populates exactly the dense prefix of local ids: slot 0
always holds the owner's own node, a slot is populated exactly when its index
is below the array length, and therefore the unchecked slot-0 access done by
`hir_owner` never hits an absent slot. -/
theorem localid_density (ro : RawOwner) (tcx : Tcx) (id : LocalDefId)
    (ih : IndexedHir) :
    ((index_owner_nodes ro)[0]? = some (some ⟨0, ro.root.toNode⟩))
    ∧ (∀ i, (∃ pn, (index_owner_nodes ro)[i]? = some (some pn)) ↔
        i < (index_owner_nodes ro).length)
    ∧ (tcx.index_hir id = some ih → ih.nodes.nodes = index_owner_nodes ro →
        ∃ pn, ih.nodes.nodes[0]? = some (some pn)) := by
  have hpref : [some ⟨0, ro.root.toNode⟩] <+: index_owner_nodes ro :=
    indexForest_pref ro.children 0 _
  have h0 : (index_owner_nodes ro)[0]? = some (some ⟨0, ro.root.toNode⟩) := by
    rw [getElem?_of_pref hpref (by simp)]
    rfl
  have hall : ∀ x ∈ index_owner_nodes ro, x.isSome = true := by
    refine indexForest_all_some ro.children 0 _ ?_
    intro x hx
    simp only [List.mem_singleton] at hx
    subst hx
    rfl
  refine ⟨h0, fun i => ⟨fun ⟨pn, hpn⟩ => ?_, fun hi => ?_⟩, fun h1 h2 => ?_⟩
  · exact (List.getElem?_eq_some.1 hpn).1
  · have hsome := hall _ (List.getElem_mem (l := index_owner_nodes ro) hi)
    obtain ⟨pn, hpn⟩ := Option.isSome_iff_exists.1 hsome
    exact ⟨pn, by rw [List.getElem?_eq_getElem hi, hpn]⟩
  · rw [h2]
    exact ⟨_, h0⟩

/-- C7 witness: on `sampleRawOwner` the indexer yields slots 0 and 1 both
populated, slot 0 holding the owner node, and the slot-0 access of the indexed
context's owner 3 succeeds. -/
theorem localid_density_witness :
    ((index_owner_nodes sampleRawOwner)[0]? = some (some ⟨0, .item 5⟩))
    ∧ (∃ pn, (index_owner_nodes sampleRawOwner)[1]? = some (some pn))
    ∧ (∃ pn, (⟨⟨777, 888, index_owner_nodes sampleRawOwner, []⟩, []⟩ :
        IndexedHir).nodes.nodes[0]? = some (some pn)) :=
  ⟨(localid_density sampleRawOwner indexedTcx 3
      ⟨⟨777, 888, index_owner_nodes sampleRawOwner, []⟩, []⟩).1,
   ((localid_density sampleRawOwner indexedTcx 3
      ⟨⟨777, 888, index_owner_nodes sampleRawOwner, []⟩, []⟩).2.1 1).2 (by decide),
   (localid_density sampleRawOwner indexedTcx 3
      ⟨⟨777, 888, index_owner_nodes sampleRawOwner, []⟩, []⟩).2.2 rfl rfl⟩

/-- C8: the node the indexer stores at local id 0 is owner-kind, so the
`as_owner` conversion in `hir_owner` succeeds and the provider returns the
summary; conversely, were the root slot to hold a non-owner-kind node,
`hir_owner` would be fatal rather than return a value. -/
theorem hir_owner_root_owner_kind (ro : RawOwner) (tcx : Tcx) (id : LocalDefId)
    (ih : IndexedHir) :
    (∃ pn, (index_owner_nodes ro)[0]? = some (some pn)
      ∧ pn.node.as_owner = some ro.root)
    ∧ (tcx.index_hir id = some ih → ih.nodes.nodes = index_owner_nodes ro →
        hir_owner tcx id = .ok (some ⟨ro.root, ih.nodes.node_hash⟩))
    ∧ (∀ pn, tcx.index_hir id = some ih → ih.nodes.nodes[0]? = some (some pn) →
        pn.node.as_owner = none → hir_owner tcx id = .fatal) := by
  have hpref : [some ⟨0, ro.root.toNode⟩] <+: index_owner_nodes ro :=
    indexForest_pref ro.children 0 _
  have h0 : (index_owner_nodes ro)[0]? = some (some ⟨0, ro.root.toNode⟩) := by
    rw [getElem?_of_pref hpref (by simp)]
    rfl
  refine ⟨⟨⟨0, ro.root.toNode⟩, h0, as_owner_toNode ro.root⟩,
    fun h1 h2 => ?_, fun pn h1 hslot hnone => ?_⟩
  · simp only [hir_owner, h1, h2, h0, as_owner_toNode]
  · simp only [hir_owner, h1, hslot, hnone]

/-- C8 witness: in `indexedTcx` the slot-0 node of `sampleRawOwner` converts to
its owner-kind root and `hir_owner` succeeds on owner 3; with the root slot
replaced by an expression node, `hir_owner` is fatal. -/
theorem hir_owner_root_owner_kind_witness :
    hir_owner indexedTcx 3 = .ok (some ⟨.item 5, 888⟩)
    ∧ hir_owner
        ⟨fun i => if i = 3 then some ⟨⟨777, 888, [some ⟨0, .expr 1⟩], []⟩, []⟩
           else none,
         fun _ => none, fun i => ⟨i, 0⟩, fun i => i, fun _ => none,
         fun _ => ⟨[]⟩, fun _ => .otherNode 0, fun _ => none, fun _ => none⟩ 3
      = .fatal :=
  ⟨(hir_owner_root_owner_kind sampleRawOwner indexedTcx 3
      ⟨⟨777, 888, index_owner_nodes sampleRawOwner, []⟩, []⟩).2.1 rfl rfl,
   (hir_owner_root_owner_kind sampleRawOwner
      ⟨fun i => if i = 3 then some ⟨⟨777, 888, [some ⟨0, .expr 1⟩], []⟩, []⟩
         else none,
       fun _ => none, fun i => ⟨i, 0⟩, fun i => i, fun _ => none,
       fun _ => ⟨[]⟩, fun _ => .otherNode 0, fun _ => none, fun _ => none⟩ 3
      ⟨⟨777, 888, [some ⟨0, .expr 1⟩], []⟩, []⟩).2.2 ⟨0, .expr 1⟩ rfl rfl rfl⟩

end RustcHir
